import Mathlib

/-!
Verification development for the cluster rebalancer in
`src/cli/commands/apply_hsm_based_on_component_quantity.rs`.

Shallow-embedding conventions, chosen once and used throughout:

* Rust `HashMap<String, V>` is modelled as an association list
  `List (String × V)` with at most one entry per key.  `insert` replaces the
  value in place (or appends a fresh key), `get` is linear lookup.  Where the
  source iterates a `HashMap` (whose order is arbitrary at runtime), the model
  iterates the association list in list order; this fixes one of the possible
  iteration orders.
* `usize` counts are `Nat`, `isize` deltas are `Int` (the quantities handled by
  the tool are far below 2^63, so wrap-around of the 64-bit types themselves is
  not modelled; the one place where the source truncates through `i32`, in
  `calculate_all_deltas`, is modelled bit-exactly by `wrap32`).
* `f32` scores are modelled by exact fractions (`F32` below) kept unreduced so
  that every definition evaluates inside the kernel.  All concrete inputs used
  in theorems are chosen so that the `f32` computations of the source are exact
  (denominators dividing powers of two times 100), hence the fraction model and
  the float behaviour agree on every comparison performed.
* `usize` subtraction in `can_node_be_removed_without_violating_user_request`
  is modelled on `Int`; at every reachable call site the minuend is a group
  total of a group containing the node, so no underflow occurs.
* The HTTP fetch layer (the `mesa` crate) is an external collaborator; the
  model starts from the per-node component-count vectors the fetch phase
  produces, exactly as `exec` holds them after its two join loops.
-/

/-- Exact-fraction stand-in for `f32` score values.  Fractions are not
normalised, so all arithmetic is plain `Int` arithmetic and reduces in the
kernel.  Comparisons assume positive denominators, which holds for every
fraction built by this development (denominators are 1 or positive component
totals). -/
structure F32 where
  num : Int
  den : Int
deriving DecidableEq

def F32.ofNat (n : Nat) : F32 := ⟨(n : Int), 1⟩

def F32.add (a b : F32) : F32 := ⟨a.num * b.den + b.num * a.den, a.den * b.den⟩

def F32.sub (a b : F32) : F32 := ⟨a.num * b.den - b.num * a.den, a.den * b.den⟩

def F32.neg (a : F32) : F32 := ⟨-a.num, a.den⟩

def F32.div (a b : F32) : F32 := ⟨a.num * b.den, a.den * b.num⟩

def F32.le (a b : F32) : Bool := a.num * b.den ≤ b.num * a.den

def F32.lt (a b : F32) : Bool := a.num * b.den < b.num * a.den

/-- The value of Rust's `f32::MIN`, which is the exact integer
`-(2^128 - 2^104)`. -/
def f32Min : F32 := ⟨-340282346638528859811704183484516925440, 1⟩

/-- One node's hardware fingerprint / any `HashMap<String, usize>`. -/
abbrev Cnt := List (String × Nat)

/-- A signed demand map, `HashMap<String, isize>` in the source. -/
abbrev IMap := List (String × Int)

/-- Normalized per-component scores, `HashMap<String, f32>` in the source. -/
abbrev FMap := List (String × F32)

/-- One entry of a group inventory: node name with its component counters. -/
abbrev NodeEntry := String × Cnt

instance : DecidableEq NodeEntry := inferInstance

instance : DecidableEq (List NodeEntry) := inferInstance

instance : DecidableEq (List NodeEntry × List NodeEntry) := inferInstance

def getV? {α : Type} : List (String × α) → String → Option α
  | [], _ => none
  | p :: rest, k => if p.1 == k then some p.2 else getV? rest k

/-- Model of `HashMap::get(k).copied().unwrap_or(0)` for counter maps. -/
def getNat (m : Cnt) (k : String) : Nat := (getV? m k).getD 0

def getInt (m : IMap) (k : String) : Int := (getV? m k).getD 0

def hasKey {α : Type} (m : List (String × α)) (k : String) : Bool := (getV? m k).isSome

/-- Model of `HashMap::insert`: replace the value of an existing key, append a new
key. -/
def mapInsert {α : Type} : List (String × α) → String → α → List (String × α)
  | [], k, v => [(k, v)]
  | p :: rest, k, v => if p.1 == k then (k, v) :: rest else p :: mapInsert rest k v

/-- Model of `*map.entry(k).or_insert(0) += v`. -/
def mapAdd (m : Cnt) (k : String) (v : Nat) : Cnt :=
  match getV? m k with
  | some w => mapInsert m k (w + v)
  | none => m ++ [(k, v)]

/-- Byte-wise (here: scalar-value-wise) comparison of strings, the order Rust
uses for `String`; `String` order from the Lean library is avoided because its
iterator implementation does not reduce in the kernel. -/
def charsLe : List Char → List Char → Bool
  | [], _ => true
  | _ :: _, [] => false
  | a :: as, b :: bs =>
    if a.toNat < b.toNat then true
    else if b.toNat < a.toNat then false
    else charsLe as bs

def strLe (a b : String) : Bool := charsLe a.data b.data

/-- Rust `str::to_lowercase` (the inputs handled by the tool are ASCII, where
per-character lowering coincides with the Unicode mapping Rust applies). -/
def rustLowercase (s : String) : String := String.mk (s.data.map Char.toLower)

/-- Rust `str::split(sep)`, on the character list of the string. -/
def splitChar (sep : Char) : List Char → List (List Char)
  | [] => [[]]
  | c :: rest =>
    if c == sep then [] :: splitChar sep rest
    else
      match splitChar sep rest with
      | [] => [[c]]
      | g :: gs => (c :: g) :: gs

def parseDigits (l : List Char) : Option Nat :=
  if l ≠ [] ∧ l.all Char.isDigit then
    some (l.foldl (fun n c => n * 10 + (c.toNat - 48)) 0)
  else none

/-- Rust `str::parse::<usize>()`: an optional leading `+`, then at least one
decimal digit.  Overflow of `usize` is not modelled (the model is unbounded
`Nat`); no theorem below depends on counts at or above 2^64. -/
def parseUsize (s : String) : Option Nat :=
  match s.data with
  | '+' :: rest => parseDigits rest
  | l => parseDigits l

/-- The pair-consuming loop of `exec` (lines 81-92): `chunks(2)` over the
pattern elements after the group name.  A well formed pair is inserted into
the map (later duplicates overwrite earlier ones); a pair whose count does not
parse is logged and skipped; a trailing chunk of length one makes the source
index out of bounds (`hw_component_counter[1]`), which panics — modelled as
`none`. -/
def processPairChunks : List String → Cnt → Option Cnt
  | [], m => some m
  | [_], _ => none
  | a :: b :: rest, m =>
    match parseUsize b with
    | some v => processPairChunks rest (mapInsert m a v)
    | none => processPairChunks rest m

/-- Pattern parsing as performed at the top of `exec` (lines 71-92): lowercase
the whole pattern, split on `':'`, remove the first token as the target group
name, then consume the remainder in pairs. -/
def parsePattern (pattern : String) : Option (String × Cnt) :=
  match (splitChar ':' (rustLowercase pattern).data).map (fun l => String.mk l) with
  | [] => none
  | g :: rest => (processPairChunks rest []).map (fun m => (g, m))

/-- Rust `str::contains` (substring test) on character lists. -/
def charsPrefixOf : List Char → List Char → Bool
  | [], _ => true
  | _ :: _, [] => false
  | a :: as, b :: bs => a == b && charsPrefixOf as bs

def charsInfixOf (pat : List Char) : List Char → Bool
  | [] => charsPrefixOf pat []
  | c :: rest => charsPrefixOf pat (c :: rest) || charsInfixOf pat rest

def rustContains (s pat : String) : Bool := charsInfixOf pat.data s.data

/-- The per-model-string key choice of `get_node_hw_properties_from_value`
(lines 2002-2013): the first user pattern that is a substring of the
lower-cased model string, or the full lower-cased model string itself. -/
def keyForModel (patterns : List String) (s : String) : String :=
  match patterns.find? (fun p => rustContains (rustLowercase s) p) with
  | some p => p
  | none => rustLowercase s

/-- Model of `get_node_hw_properties_from_value` restricted to its pure core: the
extraction of the two model-string lists from the raw inventory `Value` is
done by the external `mesa` crate, so the model starts from those lists.  The
memory-capacity list is returned untouched by the source and is consumed
separately (see `buildNodeComponentCounts`). -/
def get_node_hw_properties_from_value
    (processor_vec accelerator_vec patterns : List String) : List String :=
  (processor_vec ++ accelerator_vec).map (keyForModel patterns)

/-- Sort-then-count loop of `exec`'s fetch join (lines 185-194): the component
list is sorted and folded into per-key occurrence counts. -/
def tallyComponents (components : List String) : Cnt :=
  (List.insertionSort (fun a b => strLe a b = true) components).foldl
    (fun m s => mapAdd m s 1) []

def mem_lcm : Nat := 16384

/-- Full per-node counter construction of the fetch join (lines 185-203):
component occurrence counts plus the quantized memory bucket under key
`"memory"`. -/
def buildNodeComponentCounts (components : List String) (memoryCapacities : List Nat) : Cnt :=
  mapInsert (tallyComponents components) ("memory")
    ((memoryCapacities.foldl (· + ·) 0) / mem_lcm)

/-- Model of `calculate_hsm_hw_component_count` (lines 1888-1903). -/
def calculate_hsm_hw_component_count (vec : List NodeEntry) : Cnt :=
  vec.foldl (fun acc e => e.2.foldl (fun a p => mapAdd a p.1 p.2) acc) []

/-- Model of `get_hsm_hw_component_count_filtered_by_user_request` (lines 1870-1885). -/
def get_hsm_hw_component_count_filtered_by_user_request
    (userVec : List String) (vec : List NodeEntry) : Cnt :=
  userVec.foldl
    (fun acc k => mapInsert acc k (vec.foldl (fun s e => s + getNat e.2 k) 0)) []

/-- Model of `calculate_hsm_total_number_hw_components` (lines 2270-2277). -/
def calculate_hsm_total_number_hw_components (vec : List NodeEntry) : Nat :=
  (vec.map (fun e => (e.2.map Prod.snd).sum)).sum

/-- Model of `calculate_hsm_hw_component_normalized_density_score_from_hsm_hw_component_count_hashmap`
(lines 1930-1960): `(qty * 100) as f32 / total as f32` per component. -/
def normalizedScoresFromCounts (counts : Cnt) (total : Nat) : FMap :=
  counts.map (fun p => (p.1, F32.div (F32.ofNat (p.2 * 100)) (F32.ofNat total)))

/-- Model of `calculate_hsm_hw_component_normalized_density_score_from_hsm_node_hw_component_count_vec`
(lines 1907-1926): group the counters, then normalize. -/
def calculate_hsm_hw_component_normalized_density_score_from_hsm_node_hw_component_count_vec
    (vec : List NodeEntry) (total : Nat) : FMap :=
  normalizedScoresFromCounts (calculate_hsm_hw_component_count vec) total

/-- The `delta as i32` cast of `calculate_all_deltas` (line 1816): truncation
of a 64-bit `isize` to the low 32 bits, read back as a signed value. -/
def wrap32 (z : Int) : Int := (z + 2 ^ 31) % 2 ^ 32 - 2 ^ 31

def calcDeltasGo : Cnt → Cnt → IMap → IMap → IMap × IMap
  | [], _, accRemove, accAdd => (accRemove, accAdd)
  | (k, newQty) :: rest, totals, accRemove, accAdd =>
    let delta : Int := (newQty : Int) - (getNat totals k : Int)
    if 1 ≤ wrap32 delta then
      calcDeltasGo rest totals accRemove (mapInsert accAdd k (-delta))
    else if wrap32 delta ≤ -1 then
      calcDeltasGo rest totals (mapInsert accRemove k delta) accAdd
    else
      calcDeltasGo rest totals accRemove accAdd

/-- Model of `calculate_all_deltas` (lines 1773-1839).  For each user entry the delta
`new_quantity - quantity_from` is computed on `isize`, but the *branch* is
selected after casting the delta to `i32` (`match delta as i32`); the inserted
value is the untruncated delta.  The `.get(..).unwrap()` on the totals map is
modelled by a defaulted lookup; at the live call site the totals map contains
every user key, so the default is never taken. -/
def calculate_all_deltas (userCounts totals : Cnt) : IMap × IMap :=
  calcDeltasGo userCounts totals [] []

/-- The capacity validation of `exec` (lines 664-672): the first requested
component (in map-iteration order, modelled as list order) whose available
quantity in the collective (target ++ parent) group is below the requested
quantity, together with the requested and available quantities. -/
def checkCapacity (userCounts counts : Cnt) : Option (String × Nat × Nat) :=
  (userCounts.find? (fun p => decide (getNat counts p.1 < p.2))).map
    (fun p => (p.1, p.2, getNat counts p.1))

/-- Model of `can_node_be_removed_without_violating_user_request` (lines 1450-1475).
The source `return`s inside the `for` loop over the user-request map, so only
the FIRST requested component present in the node is examined (map iteration
order is modelled as list order); the `usize` subtraction is modelled on
`Int`. -/
def can_node_be_removed_without_violating_user_request
    (node userReq totals : Cnt) : Bool :=
  match userReq.find? (fun p => hasKey node p.1) with
  | none => true
  | some p =>
    decide ((getNat totals p.1 : Int) - (getNat node p.1 : Int) ≥ (p.2 : Int))

/-- Demand test `.get(k).is_some_and(|qty| qty.abs() > 0)` used by both
scorers. -/
def demandActive (demand : IMap) (k : String) : Bool :=
  match getV? demand k with
  | some q => decide (0 < q.natAbs)
  | none => false

def lookupF (norm : FMap) (k : String) : F32 := (getV? norm k).getD (F32.ofNat 0)

/-- Per-node downscale score body (lines 1503-1585). -/
def downscaleNodeScore (node : Cnt) (demand : IMap) (userReq totals : Cnt)
    (norm : FMap) : F32 :=
  if can_node_be_removed_without_violating_user_request node userReq totals = false then
    f32Min
  else
    node.foldl
      (fun acc p =>
        F32.add acc
          (if demandActive demand p.1 then
            (if can_node_be_removed_without_violating_user_request node userReq totals then
              F32.sub (F32.ofNat 100) (lookupF norm p.1)
            else F32.neg (F32.sub (F32.ofNat 100) (lookupF norm p.1)))
          else F32.neg (F32.sub (F32.ofNat 100) (lookupF norm p.1))))
      (F32.ofNat 0)

/-- Model of `calculate_hsm_hw_component_normalized_node_density_score_downscale`
(lines 1479-1594).  The source accumulates the scores into a `HashMap` keyed
by node name and then collects it into a vector; with distinct node names this
is the per-node map below (fresh keys append in iteration order). -/
def calculate_hsm_hw_component_normalized_node_density_score_downscale
    (vec : List NodeEntry) (demand : IMap) (userReq : Cnt)
    (norm : FMap) (totals : Cnt) : List (String × F32) :=
  vec.map (fun e => (e.1, downscaleNodeScore e.2 demand userReq totals norm))

/-- Per-node upscale score body (lines 1621-1670). -/
def upscaleNodeScore (node : Cnt) (demand : IMap) (norm : FMap) : F32 :=
  node.foldl
    (fun acc p =>
      F32.add acc
        (if demandActive demand p.1 then
          F32.sub (F32.ofNat 100) (lookupF norm p.1)
        else F32.neg (F32.sub (F32.ofNat 100) (lookupF norm p.1))))
    (F32.ofNat 0)

/-- Model of `calculate_hsm_hw_component_normalized_node_density_score_upscale`
(lines 1596-1679). -/
def calculate_hsm_hw_component_normalized_node_density_score_upscale
    (vec : List NodeEntry) (demand : IMap) (norm : FMap) : List (String × F32) :=
  vec.map (fun e => (e.1, upscaleNodeScore e.2 demand norm))

/-- Rust `sort_by(|b, a| a.1.partial_cmp(&b.1).unwrap())`: a stable sort into
descending score order.  Rust's stable sort result is uniquely determined by
the comparator, so insertion sort is a faithful model. -/
def sortScoresDesc (scores : List (String × F32)) : List (String × F32) :=
  List.insertionSort (fun a b => F32.le b.2 a.2 = true) scores

/-- Rust `Iterator::max_by`: among equally maximal elements the LAST one in
iteration order is returned. -/
def maxByLast (l : List (String × F32)) : Option (String × F32) :=
  l.foldl
    (fun acc x =>
      match acc with
      | none => some x
      | some a => if F32.lt x.2 a.2 then some a else some x)
    none

/-- Model of `get_best_candidate_to_upscale_migrate_f32_score` (lines 1405-1430): sort
the scores descending, take the (last) maximal entry, and look its counters up
in the inventory vector.  The source `unwrap`s both the `max_by` and the
`find`; a failing lookup (or an empty score vector) panics, modelled as
`none`.  A successful result is the inventory entry of the chosen node. -/
def get_best_candidate_to_upscale_migrate_f32_score
    (scores : List (String × F32)) (vec : List NodeEntry) : Option NodeEntry :=
  match maxByLast (sortScoresDesc scores) with
  | none => none
  | some best => vec.find? (fun e => e.1 == best.1)

/-- Model of `get_best_candidate_to_downscale_migrate_f32_score` (lines 1345-1370),
textually identical to the upscale variant in the source. -/
def get_best_candidate_to_downscale_migrate_f32_score
    (scores : List (String × F32)) (vec : List NodeEntry) : Option NodeEntry :=
  get_best_candidate_to_upscale_migrate_f32_score scores vec

/-- Model of `update_user_defined_hw_component_counters` (lines 1275-1297): each demand
entry is increased by the best candidate's counter for that component and kept
only while the result is `≤ 0` (so an entry that reaches exactly 0 is kept);
entries for components the candidate does not carry are kept unchanged. -/
def update_user_defined_hw_component_counters (demand : IMap) (best : Cnt) : IMap :=
  demand.foldl
    (fun acc p =>
      match getV? best p.1 with
      | some bq =>
        if p.2 + (bq : Int) ≤ 0 then mapInsert acc p.1 (p.2 + (bq : Int)) else acc
      | none => mapInsert acc p.1 p.2)
    []

/-- Model of `keep_iterating_upscale` (lines 1074-1097). -/
def keep_iterating_upscale (demand : IMap) : Bool :=
  demand.any (fun p => decide (0 < p.2.natAbs))

/-- Model of `keep_iterating_downscale` (lines 1027-1072): stop when no component of
the best candidate is a demand key, or when some demand entry's magnitude is
below the candidate's counter for it. -/
def keep_iterating_downscale (demand : IMap) (bestCounters : Cnt) : Bool :=
  !(bestCounters.all (fun p => !(hasKey demand p.1)) ||
    demand.any (fun p => hasKey bestCounters p.1 && decide (p.2.natAbs < getNat bestCounters p.1)))

/-- Loop body of `upscale_node_migration` (lines 903-1008), entered with a
best candidate for which `work_to_do` already holds.  Each pass moves the
candidate out of the working inventory, recomputes demand and scores, picks
the next candidate and re-checks `work_to_do`.  The fuel argument only bounds
recursion; `vec` strictly shrinks each pass, so `vec.length` fuel always
suffices. -/
def upscaleGo : Nat → List NodeEntry → List NodeEntry → IMap → FMap → NodeEntry →
    Option (List NodeEntry × List NodeEntry)
  | 0, _, _, _, _, _ => none
  | fuel + 1, vec, migrated, demand, norm, best =>
    let migrated' := migrated ++ [best]
    let vec' := vec.filter (fun e => !(e.1 == best.1))
    if vec'.isEmpty then some (migrated', vec')
    else
      let demand' := update_user_defined_hw_component_counters demand best.2
      let scores :=
        (calculate_hsm_hw_component_normalized_node_density_score_upscale vec' demand' norm).filter
          (fun p => !(p.1 == best.1))
      match get_best_candidate_to_upscale_migrate_f32_score scores vec' with
      | none => none
      | some best' =>
        if keep_iterating_upscale demand' then upscaleGo fuel vec' migrated' demand' norm best'
        else some (migrated', vec')

/-- Model of `upscale_node_migration` (lines 868-1025).  Returns the migrated nodes
together with the final state of the working inventory (which the source
mutates in place). -/
def upscale_node_migration (vec : List NodeEntry) (scores : List (String × F32))
    (demand : IMap) (norm : FMap) : Option (List NodeEntry × List NodeEntry) :=
  if scores.isEmpty then some ([], vec)
  else
    match get_best_candidate_to_upscale_migrate_f32_score scores vec with
    | none => none
    | some best =>
      if keep_iterating_upscale demand then upscaleGo vec.length vec [] demand norm best
      else some ([], vec)

/-- Loop body of `downscale_node_migration` (lines 1146-1256); the group
totals fed to the scorer are recomputed from the shrunken inventory each
pass. -/
def downscaleGo : Nat → List NodeEntry → List NodeEntry → IMap → Cnt → FMap → NodeEntry →
    Option (List NodeEntry × List NodeEntry)
  | 0, _, _, _, _, _, _ => none
  | fuel + 1, vec, migrated, demand, userReq, norm, best =>
    let migrated' := migrated ++ [best]
    let vec' := vec.filter (fun e => !(e.1 == best.1))
    if vec'.isEmpty then some (migrated', vec')
    else
      let demand' := update_user_defined_hw_component_counters demand best.2
      let totals' := calculate_hsm_hw_component_count vec'
      let scores :=
        (calculate_hsm_hw_component_normalized_node_density_score_downscale vec' demand' userReq
            norm totals').filter (fun p => !(p.1 == best.1))
      match get_best_candidate_to_downscale_migrate_f32_score scores vec' with
      | none => none
      | some best' =>
        if keep_iterating_downscale demand' best'.2 then
          downscaleGo fuel vec' migrated' demand' userReq norm best'
        else some (migrated', vec')

/-- Model of `downscale_node_migration` (lines 1102-1273). -/
def downscale_node_migration (vec : List NodeEntry) (scores : List (String × F32))
    (demand : IMap) (userReq : Cnt) (norm : FMap) :
    Option (List NodeEntry × List NodeEntry) :=
  if scores.isEmpty then some ([], vec)
  else
    match get_best_candidate_to_downscale_migrate_f32_score scores vec with
    | none => none
    | some best =>
      if keep_iterating_downscale demand best.2 then
        downscaleGo vec.length vec [] demand userReq norm best
      else some ([], vec)

/-- Result of one plan invocation: either the insufficient-capacity abort of
the validation block (lines 664-672) or the pair of new memberships the live
code reports (target = the nodes migrated out of the collective inventory,
parent = what remains of it, both sorted by node name, lines 746-800). -/
inductive PlanResult
  | insufficient (component : String) (requested available : Nat)
  | plan (target parent : List NodeEntry)
deriving DecidableEq

def nameLe (a b : NodeEntry) : Prop := strLe a.1 b.1 = true

instance : DecidableRel nameLe := fun a b => inferInstanceAs (Decidable (strLe a.1 b.1 = true))

/-- Rust `sort_by(|a, b| a.0.partial_cmp(&b.0).unwrap())` on inventory
vectors. -/
def sortEntriesByName (l : List NodeEntry) : List NodeEntry :=
  List.insertionSort nameLe l

/-- The collective inventory (lines 465-469): target vector followed by the
parent vector. -/
def unionInventory (targetVec parentVec : List NodeEntry) : List NodeEntry :=
  targetVec ++ parentVec

/-- Model of `user_defined_hw_component_vec` (lines 99-104): the requested component
keys, sorted. -/
def planUserKeysSorted (userCounts : Cnt) : List String :=
  List.insertionSort (fun a b => strLe a b = true) (userCounts.map Prod.fst)

/-- The `retain` of line 539: requested components absent from the collective
counters are dropped. -/
def filterUserReq (userCounts counts : Cnt) : Cnt :=
  userCounts.filter (fun p => hasKey counts p.1)

def planUnionCounts (targetVec parentVec : List NodeEntry) : Cnt :=
  calculate_hsm_hw_component_count (unionInventory targetVec parentVec)

def planFilteredRequest (userCounts : Cnt) (targetVec parentVec : List NodeEntry) : Cnt :=
  filterUserReq userCounts (planUnionCounts targetVec parentVec)

/-- Model of `hw_components_to_migrate_from_target_hsm_to_parent_hsm` of the live code
(lines 543-549): deltas of the filtered request against the collective
filtered totals. -/
def planToRemove (userCounts : Cnt) (targetVec parentVec : List NodeEntry) : IMap :=
  (calculate_all_deltas (planFilteredRequest userCounts targetVec parentVec)
      (get_hsm_hw_component_count_filtered_by_user_request (planUserKeysSorted userCounts)
        (unionInventory targetVec parentVec))).1

def planNorm (targetVec parentVec : List NodeEntry) : FMap :=
  calculate_hsm_hw_component_normalized_density_score_from_hsm_node_hw_component_count_vec
    (unionInventory targetVec parentVec)
    (calculate_hsm_total_number_hw_components (unionInventory targetVec parentVec))

/-- The initial score vector passed to `upscale_node_migration` (lines
700-708); the live code computes it with the DOWNSCALE scorer over the
collective inventory. -/
def planInitialScores (userCounts : Cnt) (targetVec parentVec : List NodeEntry) :
    List (String × F32) :=
  calculate_hsm_hw_component_normalized_node_density_score_downscale
    (unionInventory targetVec parentVec) (planToRemove userCounts targetVec parentVec)
    (planFilteredRequest userCounts targetVec parentVec) (planNorm targetVec parentVec)
    (planUnionCounts targetVec parentVec)

/-- Model of `hw_components_to_migrate_from_parent_hsm_to_target_hsm` (lines 682-686):
the whole filtered request, negated. -/
def planUpscaleDemand (userCounts : Cnt) (targetVec parentVec : List NodeEntry) : IMap :=
  (planFilteredRequest userCounts targetVec parentVec).map (fun p => (p.1, -(p.2 : Int)))

/-- The live data flow of `exec` after the fetch phase: collective counters
and normalized scores, request filtering, deltas, capacity validation, then
`upscale_node_migration` over the collective inventory; the migrated nodes are
the reported target membership and the remaining inventory the parent
membership, both sorted by node name (lines 736-800).  `none` models a
panic. -/
def execPlanModel (userCounts : Cnt) (targetVec parentVec : List NodeEntry) :
    Option PlanResult :=
  match checkCapacity (planFilteredRequest userCounts targetVec parentVec)
      (planUnionCounts targetVec parentVec) with
  | some e => some (PlanResult.insufficient e.1 e.2.1 e.2.2)
  | none =>
    match upscale_node_migration (unionInventory targetVec parentVec)
        (planInitialScores userCounts targetVec parentVec)
        (planUpscaleDemand userCounts targetVec parentVec) (planNorm targetVec parentVec) with
    | none => none
    | some mv => some (PlanResult.plan (sortEntriesByName mv.1) (sortEntriesByName mv.2))

theorem F32.le_self (s : F32) : F32.le s s = true := by
  simp [F32.le]

theorem F32.lt_self (s : F32) : F32.lt s s = false := by
  simp [F32.lt]

theorem charsLe_total : ∀ a b : List Char, charsLe a b = true ∨ charsLe b a = true
  | [], _ => Or.inl rfl
  | _ :: _, [] => Or.inr rfl
  | x :: xs, y :: ys => by
    rcases Nat.lt_trichotomy x.toNat y.toNat with hlt | heq | hgt
    · exact Or.inl (by simp [charsLe, hlt])
    · have h1 : ¬ x.toNat < y.toNat := by omega
      have h2 : ¬ y.toNat < x.toNat := by omega
      rcases charsLe_total xs ys with h | h
      · exact Or.inl (by simp [charsLe, h1, h2, h])
      · exact Or.inr (by simp [charsLe, h1, h2, h])
    · exact Or.inr (by simp [charsLe, hgt])

theorem charsLe_trans : ∀ a b c : List Char,
    charsLe a b = true → charsLe b c = true → charsLe a c = true
  | [], _, _, _, _ => rfl
  | _ :: _, [], _, hab, _ => by simp [charsLe] at hab
  | _ :: _, _ :: _, [], _, hbc => by simp [charsLe] at hbc
  | x :: xs, y :: ys, z :: zs, hab, hbc => by
    simp only [charsLe] at hab hbc ⊢
    by_cases h1 : x.toNat < y.toNat
    · by_cases h3 : y.toNat < z.toNat
      · have hxz : x.toNat < z.toNat := by omega
        simp [hxz]
      · by_cases h4 : z.toNat < y.toNat
        · simp [h3, h4] at hbc
        · have hxz : x.toNat < z.toNat := by omega
          simp [hxz]
    · by_cases h2 : y.toNat < x.toNat
      · simp [h1, h2] at hab
      · by_cases h3 : y.toNat < z.toNat
        · have hxz : x.toNat < z.toNat := by omega
          simp [hxz]
        · by_cases h4 : z.toNat < y.toNat
          · simp [h3, h4] at hbc
          · have hxz1 : ¬ x.toNat < z.toNat := by omega
            have hxz2 : ¬ z.toNat < x.toNat := by omega
            simp only [if_neg h1, if_neg h2] at hab
            simp only [if_neg h3, if_neg h4] at hbc
            simp only [if_neg hxz1, if_neg hxz2]
            exact charsLe_trans xs ys zs hab hbc

instance : IsTotal NodeEntry nameLe :=
  ⟨fun a b => by
    rcases charsLe_total a.1.data b.1.data with h | h
    · exact Or.inl h
    · exact Or.inr h⟩

instance : IsTrans NodeEntry nameLe :=
  ⟨fun _ _ _ h1 h2 => charsLe_trans _ _ _ h1 h2⟩

theorem getV?_mapInsert {α : Type} :
    ∀ (m : List (String × α)) (k s : String) (v : α),
      getV? (mapInsert m k v) s = if s = k then some v else getV? m s
  | [], k, s, v => by
    by_cases h : s = k
    · simp [mapInsert, getV?, h]
    · have h' : (k == s) = false := beq_eq_false_iff_ne.mpr (fun h2 => h h2.symm)
      simp [mapInsert, getV?, h, h']
  | p :: rest, k, s, v => by
    by_cases hpk : p.1 = k
    · by_cases hsk : s = k
      · simp [mapInsert, getV?, hpk, hsk]
      · have hks : (k == s) = false := beq_eq_false_iff_ne.mpr (fun h2 => hsk h2.symm)
        have hps : (p.1 == s) = false :=
          beq_eq_false_iff_ne.mpr (fun h2 => hsk (h2.symm.trans hpk))
        simp [mapInsert, getV?, hpk, hsk, hks, hps]
    · have hpk' : (p.1 == k) = false := beq_eq_false_iff_ne.mpr hpk
      by_cases hps : p.1 = s
      · have hsk : ¬ s = k := fun h => hpk (hps.trans h)
        simp [mapInsert, getV?, hpk', hps, hsk]
      · have hps' : (p.1 == s) = false := beq_eq_false_iff_ne.mpr hps
        simp [mapInsert, getV?, hpk', hps', getV?_mapInsert rest k s v]

theorem hasKey_mapInsert {α : Type} (m : List (String × α)) (k s : String) (v : α) :
    hasKey (mapInsert m k v) s = true → s = k ∨ hasKey m s = true := by
  intro h
  by_cases hsk : s = k
  · exact Or.inl hsk
  · right
    simpa [hasKey, getV?_mapInsert, hsk] using h

/-- Claim C3 counterexample: a pattern tail with a duplicate component key is
NOT rejected — parsing succeeds (with the last count winning) and the plan
goes on to perform I/O, where the claim demands a MalformedPattern failure
before any I/O. -/
theorem malformed_pattern_accepted :
    (parsePattern ("g:a100:4:a100:5")).isSome = true := by decide

/-- Claim C3 (amended): of the three violation classes only the odd trailing
token aborts, and it does so through an out-of-bounds panic rather than a
MalformedPattern error; a non-integer count is logged and its pair skipped
(parsing succeeds with the pair dropped and planning continues to I/O); a
duplicate component key is accepted, the last occurrence overwriting the
earlier one. -/
theorem pattern_error_handling_amended :
    parsePattern ("g:a100") = none
    ∧ parsePattern ("g:a100:4:epyc") = none
    ∧ parsePattern ("g:a100:x") = some (("g"), [])
    ∧ parsePattern ("g:a100:4:a100:5") = some (("g"), [(("a100"), 5)]) := by decide

/-- Claim C5: at the failing input `D(a100) = 2^32`, `T(a100) = 0` the delta
is `2^32 > 0`, but the source selects the match arm after casting the delta to
`i32` (`match delta as i32`), which truncates `2^32` to `0`, so the key lands
in NEITHER output map — where the claim (and the source's own `delta > 0`
comment on the arm) require `(a100, -2^32)` in `to_add_to_target`. -/
theorem delta_i32_cast_drops_large_delta :
    calculate_all_deltas [(("a100"), 4294967296)] [(("a100"), 0)] = ([], [])
    ∧ (0 : Int) < (4294967296 : Int) - (0 : Int) := by decide

/-- Claim C2 counterexample: two candidates with equal scores, listed in
sorted NodeId order; the selection returns `n2`, the LAST candidate in NodeId
order, not the first as the claim states. -/
theorem tie_break_selects_last_not_first :
    get_best_candidate_to_upscale_migrate_f32_score
        [(("n1"), F32.ofNat 5), (("n2"), F32.ofNat 5)] [(("n1"), []), (("n2"), [])]
      = some (("n2"), [])
    ∧ strLe ("n1") ("n2") = true ∧ (("n1") : String) ≠ ("n2") := by decide

/-- Claim C2 (amended): on equal scores the candidate selection is still
deterministic GIVEN the score-vector order, but it picks the LAST tied
candidate of that order: the descending sort is stable and Rust's `max_by`
returns the last maximal element.  (The score-vector order itself comes from a
`HashMap` iteration, so the end-to-end plan is deterministic only up to that
iteration order.) -/
theorem upscale_tie_selects_last_in_order (n1 n2 : String) (s : F32) (fp1 fp2 : Cnt)
    (h : (n1 == n2) = false) :
    get_best_candidate_to_upscale_migrate_f32_score [(n1, s), (n2, s)] [(n1, fp1), (n2, fp2)]
      = some (n2, fp2) := by
  simp [get_best_candidate_to_upscale_migrate_f32_score, sortScoresDesc, maxByLast,
    List.insertionSort, List.orderedInsert, F32.le_self, F32.lt_self, List.find?, h]

theorem upscale_tie_selects_last_in_order_witness :
    get_best_candidate_to_upscale_migrate_f32_score
        [(("na"), F32.ofNat 0), (("nb"), F32.ofNat 0)] [(("na"), []), (("nb"), [])]
      = some (("nb"), []) :=
  upscale_tie_selects_last_in_order ("na") ("nb") (F32.ofNat 0) [] [] (by decide)

/-- Claim C8: failing input for the downscale scoring safety step.  For node
`n1 = {epyc:1, a100:4}` with target totals `{epyc:4, a100:4}` and request
`{epyc:2, a100:4}`, removing `n1` violates the request on `a100`
(`4 - 4 = 0 < 4`), yet the safety predicate `return`s after examining only the
first requested key present in the node (`epyc`, which passes), so `n1` is
scored `0`, not the minimum possible score `f32::MIN`. -/
theorem downscale_score_misses_second_requested_key :
    calculate_hsm_hw_component_normalized_node_density_score_downscale
        [(("n1"), [(("epyc"), 1), (("a100"), 4)]), (("n2"), [(("epyc"), 3)])]
        [(("epyc"), -2)] [(("epyc"), 2), (("a100"), 4)]
        [(("epyc"), ⟨50, 1⟩), (("a100"), ⟨50, 1⟩)] [(("epyc"), 4), (("a100"), 4)]
      = [(("n1"), ⟨0, 1⟩), (("n2"), f32Min)]
    ∧ (getNat [(("epyc"), 4), (("a100"), 4)] ("a100") : Int)
        - (getNat [(("epyc"), 1), (("a100"), 4)] ("a100") : Int)
        < (getNat [(("epyc"), 2), (("a100"), 4)] ("a100") : Int)
    ∧ ((⟨0, 1⟩ : F32) = f32Min → False) := by decide

/-- Claim C7: failing input for the no-over-shoot invariant.  With the same
group as above the downscale loop moves `n1` out of the target (its score is
the finite `0` while `n2` is pinned at `f32::MIN`, and the demand guard only
checks the demand key `epyc`), after which the remaining target holds 0 of the
requested 4 `a100` — the removal the claim says never happens. -/
theorem downscale_moves_node_violating_request :
    downscale_node_migration
        [(("n1"), [(("epyc"), 1), (("a100"), 4)]), (("n2"), [(("epyc"), 3)])]
        (calculate_hsm_hw_component_normalized_node_density_score_downscale
          [(("n1"), [(("epyc"), 1), (("a100"), 4)]), (("n2"), [(("epyc"), 3)])]
          [(("epyc"), -2)] [(("epyc"), 2), (("a100"), 4)]
          [(("epyc"), ⟨50, 1⟩), (("a100"), ⟨50, 1⟩)] [(("epyc"), 4), (("a100"), 4)])
        [(("epyc"), -2)] [(("epyc"), 2), (("a100"), 4)]
        [(("epyc"), ⟨50, 1⟩), (("a100"), ⟨50, 1⟩)]
      = some ([(("n1"), [(("epyc"), 1), (("a100"), 4)])], [(("n2"), [(("epyc"), 3)])])
    ∧ getNat (calculate_hsm_hw_component_count [(("n2"), [(("epyc"), 3)])]) ("a100")
        < getNat [(("epyc"), 2), (("a100"), 4)] ("a100") := by decide

/-- Claim C10: failing input for idempotence on equilibrium.  The target's
filtered totals equal the request exactly (`a100 = 4`), yet the live plan
rebuilds the target from the collective inventory by score: the parent node
`nodea` (carrying only `a100`) outscores the original target node `nodeb`
(which also carries unrequested `junk`), so the plan SWAPS the memberships
instead of leaving them unchanged. -/
theorem equilibrium_plan_swaps_memberships :
    get_hsm_hw_component_count_filtered_by_user_request [("a100")]
        [(("nodeb"), [(("a100"), 4), (("junk"), 2)])] = [(("a100"), 4)]
    ∧ execPlanModel [(("a100"), 4)] [(("nodeb"), [(("a100"), 4), (("junk"), 2)])]
        [(("nodea"), [(("a100"), 4)])]
      = some (PlanResult.plan [(("nodea"), [(("a100"), 4)])]
          [(("nodeb"), [(("a100"), 4), (("junk"), 2)])]) := by decide

theorem getV?_append {α : Type} :
    ∀ (m1 m2 : List (String × α)) (s : String),
      getV? (m1 ++ m2) s = match getV? m1 s with
        | some v => some v
        | none => getV? m2 s
  | [], _, _ => by simp [getV?]
  | p :: rest, m2, s => by
    by_cases h : p.1 = s
    · have h' : (p.1 == s) = true := beq_iff_eq.mpr h
      simp [getV?, h']
    · have h' : (p.1 == s) = false := beq_eq_false_iff_ne.mpr h
      simp [getV?, h', getV?_append rest m2 s]

theorem getNat_mapAdd (m : Cnt) (a s : String) (v : Nat) :
    getNat (mapAdd m a v) s = getNat m s + if a = s then v else 0 := by
  unfold mapAdd
  cases h : getV? m a with
  | some w =>
    rw [getNat, getV?_mapInsert]
    by_cases hsa : s = a
    · subst hsa
      simp [getNat, h]
    · have : ¬ a = s := fun h2 => hsa h2.symm
      simp [getNat, hsa, this]
  | none =>
    by_cases hsa : s = a
    · subst hsa
      have h1 : (s == s) = true := beq_self_eq_true s
      simp [getNat, getV?_append, h, getV?, h1]
    · have h1 : (a == s) = false := beq_eq_false_iff_ne.mpr (fun h2 => hsa h2.symm)
      have h2 : ¬ a = s := fun h2 => hsa h2.symm
      cases h3 : getV? m s with
      | some w => simp [getNat, getV?_append, h3, h2]
      | none => simp [getNat, getV?_append, h3, getV?, h1, h2]

theorem bump_count :
    ∀ (l : List String) (m : Cnt) (s : String),
      getNat (l.foldl (fun m2 s2 => mapAdd m2 s2 1) m) s = getNat m s + l.count s
  | [], m, s => by simp
  | a :: rest, m, s => by
    simp only [List.foldl_cons]
    rw [bump_count rest (mapAdd m a 1) s, getNat_mapAdd]
    by_cases h : a = s
    · simp [h, List.count_cons]
      omega
    · have h' : (s == a) = false := beq_eq_false_iff_ne.mpr (fun h2 => h h2.symm)
      simp [h, List.count_cons, h']

theorem tally_count (l : List String) (s : String) :
    getNat (tallyComponents l) s = l.count s := by
  unfold tallyComponents
  rw [bump_count]
  have hperm := List.perm_insertionSort (fun a b => strLe a b = true) l
  simp [getNat, getV?, hperm.count_eq]

theorem calcDeltasGo_remove_keys :
    ∀ (userCounts totals : Cnt) (accRemove accAdd : IMap) (k : String),
      hasKey ((calcDeltasGo userCounts totals accRemove accAdd).1) k = true →
      hasKey accRemove k = true ∨ k ∈ userCounts.map Prod.fst
  | [], _, _, _, _, h => Or.inl h
  | (k0, q) :: rest, totals, accRemove, accAdd, k, h => by
    simp only [calcDeltasGo] at h
    by_cases h1 : (1 : Int) ≤ wrap32 ((q : Int) - (getNat totals k0 : Int))
    · rw [if_pos h1] at h
      rcases calcDeltasGo_remove_keys rest totals accRemove _ k h with h2 | h2
      · exact Or.inl h2
      · exact Or.inr (List.mem_cons_of_mem _ h2)
    · rw [if_neg h1] at h
      by_cases h2 : wrap32 ((q : Int) - (getNat totals k0 : Int)) ≤ -1
      · rw [if_pos h2] at h
        rcases calcDeltasGo_remove_keys rest totals _ accAdd k h with h3 | h3
        · rcases hasKey_mapInsert _ _ _ _ h3 with h4 | h4
          · exact Or.inr (by simp [h4])
          · exact Or.inl h4
        · exact Or.inr (List.mem_cons_of_mem _ h3)
      · rw [if_neg h2] at h
        rcases calcDeltasGo_remove_keys rest totals accRemove accAdd k h with h3 | h3
        · exact Or.inl h3
        · exact Or.inr (List.mem_cons_of_mem _ h3)

/-- Claim C6 counterexample: the target node `n1` carries `junk:2`, a
component not in the request `{a100:4}`, yet the live delta stage produces an
EMPTY `to_remove_from_target` — the claim's required extra entry
`(junk, -2)` is absent (the fingerprint scan that would add it exists only as
commented-out code). -/
theorem unrequested_components_not_in_removal_deltas :
    getNat [(("a100"), 4), (("junk"), 2)] ("junk") = 2
    ∧ hasKey [(("a100"), (4 : Nat))] ("junk") = false
    ∧ planToRemove [(("a100"), 4)] [(("n1"), [(("a100"), 4), (("junk"), 2)])] [] = []
    ∧ getV? (planToRemove [(("a100"), 4)] [(("n1"), [(("a100"), 4), (("junk"), 2)])] [])
        ("junk") = none := by decide

/-- Claim C6 (amended): the live DeltaEngine emits `to_remove_from_target`
entries only for user-requested component keys (those with a negative delta);
a component key that is not in DesiredCounts is never placed in
`to_remove_from_target`, so unrequested hardware is NOT scheduled for removal
by the delta stage. -/
theorem removal_deltas_only_requested_keys (userCounts totals : Cnt) (k : String)
    (h : hasKey ((calculate_all_deltas userCounts totals).1) k = true) :
    k ∈ userCounts.map Prod.fst := by
  rcases calcDeltasGo_remove_keys userCounts totals [] [] k h with h2 | h2
  · simp [hasKey, getV?] at h2
  · exact h2

theorem removal_deltas_only_requested_keys_witness :
    ("epyc") ∈ ([(("epyc"), (2 : Nat))].map Prod.fst) :=
  removal_deltas_only_requested_keys [(("epyc"), 2)] [(("epyc"), 4)] ("epyc") (by decide)

/-- Claim C9: each extracted (and lower-cased) model string is tallied under
the first user-requested key that is a substring of it, and under the full
lower-cased model string itself when no requested key matches; the chosen key
receives a positive tally in the node's component counts. -/
theorem fingerprint_substring_tally (patterns processor_vec accelerator_vec : List String)
    (m : String) (hm : m ∈ processor_vec ++ accelerator_vec) :
    ((∃ p, p ∈ patterns ∧ rustContains (rustLowercase m) p = true) →
        keyForModel patterns m ∈ patterns
        ∧ rustContains (rustLowercase m) (keyForModel patterns m) = true)
    ∧ ((∀ p, p ∈ patterns → rustContains (rustLowercase m) p = false) →
        keyForModel patterns m = rustLowercase m)
    ∧ 0 < getNat
        (tallyComponents
          (get_node_hw_properties_from_value processor_vec accelerator_vec patterns))
        (keyForModel patterns m) := by
  refine ⟨?_, ?_, ?_⟩
  · rintro ⟨p, hp, hc⟩
    have hsome : (patterns.find? (fun p2 => rustContains (rustLowercase m) p2)).isSome :=
      List.find?_isSome.mpr ⟨p, hp, hc⟩
    cases hfind : patterns.find? (fun p2 => rustContains (rustLowercase m) p2) with
    | none => rw [hfind] at hsome; simp at hsome
    | some q =>
      refine ⟨?_, ?_⟩
      · have hmem := List.mem_of_find?_eq_some hfind
        simpa [keyForModel, hfind] using hmem
      · have hpred := List.find?_some hfind
        simpa [keyForModel, hfind] using hpred
  · intro hall
    have hnone : patterns.find? (fun p2 => rustContains (rustLowercase m) p2) = none :=
      List.find?_eq_none.mpr (fun x hx => by simp [hall x hx])
    simp [keyForModel, hnone]
  · rw [tally_count]
    have hmem : keyForModel patterns m
        ∈ get_node_hw_properties_from_value processor_vec accelerator_vec patterns :=
      List.mem_map_of_mem _ hm
    exact List.count_pos_iff.mpr hmem

theorem fingerprint_substring_tally_witness :
    ((∃ p, p ∈ [("a100")] ∧ rustContains (rustLowercase ("NVIDIA A100-SXM4-40GB")) p = true) →
        keyForModel [("a100")] ("NVIDIA A100-SXM4-40GB") ∈ [("a100")]
        ∧ rustContains (rustLowercase ("NVIDIA A100-SXM4-40GB"))
            (keyForModel [("a100")] ("NVIDIA A100-SXM4-40GB")) = true)
    ∧ ((∀ p, p ∈ [("a100")] →
          rustContains (rustLowercase ("NVIDIA A100-SXM4-40GB")) p = false) →
        keyForModel [("a100")] ("NVIDIA A100-SXM4-40GB")
          = rustLowercase ("NVIDIA A100-SXM4-40GB"))
    ∧ 0 < getNat
        (tallyComponents
          (get_node_hw_properties_from_value [("AMD EPYC 7742")] [("NVIDIA A100-SXM4-40GB")]
            [("a100")]))
        (keyForModel [("a100")] ("NVIDIA A100-SXM4-40GB")) :=
  fingerprint_substring_tally [("a100")] [("AMD EPYC 7742")] [("NVIDIA A100-SXM4-40GB")]
    ("NVIDIA A100-SXM4-40GB") (by decide)

theorem mem_of_get_best_upscale (scores : List (String × F32)) (vec : List NodeEntry)
    (e : NodeEntry) (h : get_best_candidate_to_upscale_migrate_f32_score scores vec = some e) :
    e ∈ vec := by
  unfold get_best_candidate_to_upscale_migrate_f32_score at h
  cases hb : maxByLast (sortScoresDesc scores) with
  | none => rw [hb] at h; simp at h
  | some b =>
    rw [hb] at h
    exact List.mem_of_find?_eq_some h

theorem perm_cons_filter_ne :
    ∀ (vec : List NodeEntry) (best : NodeEntry), best ∈ vec →
      (vec.map Prod.fst).Nodup →
      List.Perm vec (best :: vec.filter (fun e => !(e.1 == best.1)))
  | [], best, hmem, _ => absurd hmem (List.not_mem_nil best)
  | e :: rest, best, hmem, hnd => by
    have hnd' : (e.1 ∉ rest.map Prod.fst) ∧ (rest.map Prod.fst).Nodup := by
      rw [List.map_cons, List.nodup_cons] at hnd
      exact hnd
    rcases List.mem_cons.mp hmem with heq | hmem2
    · subst heq
      have hfe : (!(best.1 == best.1)) = false := by simp
      have hrest : rest.filter (fun x => !(x.1 == best.1)) = rest := by
        apply List.filter_eq_self.mpr
        intro x hx
        have hxne : x.1 ≠ best.1 := by
          intro hx1
          exact hnd'.1 (hx1 ▸ List.mem_map_of_mem Prod.fst hx)
        simp [hxne]
      have hgoal : (best :: rest).filter (fun x => !(x.1 == best.1)) = rest := by
        simp only [List.filter_cons, hfe]
        simpa using hrest
      rw [hgoal]
    · have hne : e.1 ≠ best.1 := by
        intro h1
        exact hnd'.1 (h1 ▸ List.mem_map_of_mem Prod.fst hmem2)
      have hfe : (!(e.1 == best.1)) = true := by simp [hne]
      have ih := perm_cons_filter_ne rest best hmem2 hnd'.2
      have hgoal : (e :: rest).filter (fun x => !(x.1 == best.1))
          = e :: rest.filter (fun x => !(x.1 == best.1)) := by
        simp only [List.filter_cons, hfe]
        simp
      rw [hgoal]
      exact (ih.cons e).trans (List.Perm.swap best e _)

theorem nodup_names_filter (vec : List NodeEntry) (q : NodeEntry → Bool)
    (hnd : (vec.map Prod.fst).Nodup) : ((vec.filter q).map Prod.fst).Nodup := by
  have hsub : List.Sublist ((vec.filter q).map Prod.fst) (vec.map Prod.fst) :=
    (List.filter_sublist vec).map Prod.fst
  exact List.Nodup.sublist hsub hnd

theorem upscaleGo_perm :
    ∀ (fuel : Nat) (vec migrated : List NodeEntry) (demand : IMap) (norm : FMap)
      (best : NodeEntry) (m v : List NodeEntry),
      best ∈ vec → (vec.map Prod.fst).Nodup →
      upscaleGo fuel vec migrated demand norm best = some (m, v) →
      List.Perm (m ++ v) (migrated ++ vec)
  | 0, _, _, _, _, _, _, _, _, _, h => by simp [upscaleGo] at h
  | fuel + 1, vec, migrated, demand, norm, best, m, v, hmem, hnd, h => by
    have hperm : List.Perm vec (best :: vec.filter (fun e => !(e.1 == best.1))) :=
      perm_cons_filter_ne vec best hmem hnd
    have hbase : List.Perm ((migrated ++ [best]) ++ vec.filter (fun e => !(e.1 == best.1)))
        (migrated ++ vec) := by
      have h1 : (migrated ++ [best]) ++ vec.filter (fun e => !(e.1 == best.1))
          = migrated ++ (best :: vec.filter (fun e => !(e.1 == best.1))) := by
        simp
      rw [h1]
      exact List.Perm.append_left migrated hperm.symm
    simp only [upscaleGo] at h
    split at h
    · injection h with h2
      injection h2 with hm hv
      rw [← hm, ← hv]
      exact hbase
    · split at h
      · simp at h
      · next best' hbc =>
        split at h
        · have ih := upscaleGo_perm fuel (vec.filter (fun e => !(e.1 == best.1)))
            (migrated ++ [best]) _ norm best' m v
            (mem_of_get_best_upscale _ _ _ hbc)
            (nodup_names_filter vec _ hnd) h
          exact ih.trans hbase
        · injection h with h2
          injection h2 with hm hv
          rw [← hm, ← hv]
          exact hbase

theorem upscale_node_migration_perm (vec : List NodeEntry) (scores : List (String × F32))
    (demand : IMap) (norm : FMap) (m v : List NodeEntry)
    (h : upscale_node_migration vec scores demand norm = some (m, v))
    (hnd : (vec.map Prod.fst).Nodup) : List.Perm (m ++ v) vec := by
  simp only [upscale_node_migration] at h
  split at h
  · injection h with h2
    injection h2 with hm hv
    rw [← hm, ← hv]
    simp
  · split at h
    · simp at h
    · next best hbc =>
      split at h
      · have := upscaleGo_perm vec.length vec [] demand norm best m v
          (mem_of_get_best_upscale _ _ _ hbc) hnd h
        simpa using this
      · injection h with h2
        injection h2 with hm hv
        rw [← hm, ← hv]
        simp

/-- Claim C1: whenever the live plan pipeline returns a membership pair (and
the input inventories carry pairwise distinct node names), the two outputs
partition the input node set — their names together are a permutation of the
input names (no node created, lost or duplicated), the two sides are
disjoint, and both output sequences are sorted by NodeId. -/
theorem plan_memberships_partition (userCounts : Cnt) (targetVec parentVec t p : List NodeEntry)
    (h : execPlanModel userCounts targetVec parentVec = some (PlanResult.plan t p))
    (hnd : ((unionInventory targetVec parentVec).map Prod.fst).Nodup) :
    List.Perm (t.map Prod.fst ++ p.map Prod.fst)
        ((unionInventory targetVec parentVec).map Prod.fst)
    ∧ (t.map Prod.fst).Disjoint (p.map Prod.fst)
    ∧ List.Sorted (fun a b : String => strLe a b = true) (t.map Prod.fst)
    ∧ List.Sorted (fun a b : String => strLe a b = true) (p.map Prod.fst) := by
  simp only [execPlanModel] at h
  split at h
  · simp at h
  · split at h
    · simp at h
    · next mv hup =>
      injection h with h2
      injection h2 with ht hp2
      have hperm0 : List.Perm (mv.1 ++ mv.2) (unionInventory targetVec parentVec) :=
        upscale_node_migration_perm _ _ _ _ _ _ hup hnd
      have hpt : List.Perm t mv.1 := by
        rw [← ht]
        exact List.perm_insertionSort nameLe mv.1
      have hpp : List.Perm p mv.2 := by
        rw [← hp2]
        exact List.perm_insertionSort nameLe mv.2
      have hnames : List.Perm (t.map Prod.fst ++ p.map Prod.fst)
          ((unionInventory targetVec parentVec).map Prod.fst) := by
        have h4 : List.Perm (t ++ p) (mv.1 ++ mv.2) := List.Perm.append hpt hpp
        have h5 := (h4.trans hperm0).map Prod.fst
        simpa [List.map_append] using h5
      refine ⟨hnames, ?_, ?_, ?_⟩
      · have hndtp : (t.map Prod.fst ++ p.map Prod.fst).Nodup :=
          (hnames.nodup_iff).mpr hnd
        exact (List.nodup_append.mp hndtp).2.2
      · have hs : List.Sorted nameLe t := by
          rw [← ht]
          exact List.sorted_insertionSort nameLe mv.1
        exact List.Pairwise.map Prod.fst (fun a b hab => hab) hs
      · have hs : List.Sorted nameLe p := by
          rw [← hp2]
          exact List.sorted_insertionSort nameLe mv.2
        exact List.Pairwise.map Prod.fst (fun a b hab => hab) hs

theorem plan_memberships_partition_witness :
    List.Perm (([(("n1"), [(("a100"), 4)]), (("n2"), [(("epyc"), 2)])] : List NodeEntry).map
          Prod.fst
        ++ ([] : List NodeEntry).map Prod.fst)
      ((unionInventory [(("n1"), [(("a100"), 4)])] [(("n2"), [(("epyc"), 2)])]).map Prod.fst)
    ∧ ((([(("n1"), [(("a100"), 4)]), (("n2"), [(("epyc"), 2)])] : List NodeEntry).map
          Prod.fst).Disjoint (([] : List NodeEntry).map Prod.fst))
    ∧ List.Sorted (fun a b : String => strLe a b = true)
        (([(("n1"), [(("a100"), 4)]), (("n2"), [(("epyc"), 2)])] : List NodeEntry).map Prod.fst)
    ∧ List.Sorted (fun a b : String => strLe a b = true)
        (([] : List NodeEntry).map Prod.fst) :=
  plan_memberships_partition [(("a100"), 4)] [(("n1"), [(("a100"), 4)])]
    [(("n2"), [(("epyc"), 2)])] [(("n1"), [(("a100"), 4)]), (("n2"), [(("epyc"), 2)])] []
    (by decide) (by decide)

/-- Claim C4: if some requested component key that survived the filtering
against the collective counters has fewer units available in the collective
group than requested, the plan aborts with the insufficient-capacity
diagnostic, which names a deficient component together with its requested and
available quantities, and no membership pair is produced. -/
theorem insufficient_capacity_aborts (userCounts : Cnt) (targetVec parentVec : List NodeEntry)
    (k : String) (req : Nat)
    (hk : (k, req) ∈ planFilteredRequest userCounts targetVec parentVec)
    (hlt : getNat (planUnionCounts targetVec parentVec) k < req) :
    ∃ k2 req2 avail2,
      execPlanModel userCounts targetVec parentVec
        = some (PlanResult.insufficient k2 req2 avail2)
      ∧ (k2, req2) ∈ planFilteredRequest userCounts targetVec parentVec
      ∧ avail2 = getNat (planUnionCounts targetVec parentVec) k2
      ∧ avail2 < req2 := by
  have hsome : ((planFilteredRequest userCounts targetVec parentVec).find?
      (fun p2 => decide (getNat (planUnionCounts targetVec parentVec) p2.1 < p2.2))).isSome :=
    List.find?_isSome.mpr ⟨(k, req), hk, by simpa using hlt⟩
  cases hfind : (planFilteredRequest userCounts targetVec parentVec).find?
      (fun p2 => decide (getNat (planUnionCounts targetVec parentVec) p2.1 < p2.2)) with
  | none => rw [hfind] at hsome; simp at hsome
  | some q =>
    have hcap : checkCapacity (planFilteredRequest userCounts targetVec parentVec)
        (planUnionCounts targetVec parentVec)
        = some (q.1, q.2, getNat (planUnionCounts targetVec parentVec) q.1) := by
      simp [checkCapacity, hfind]
    refine ⟨q.1, q.2, getNat (planUnionCounts targetVec parentVec) q.1, ?_, ?_, rfl, ?_⟩
    · simp [execPlanModel, hcap]
    · have hmem := List.mem_of_find?_eq_some hfind
      simpa using hmem
    · have hpred := List.find?_some hfind
      simpa using hpred

theorem insufficient_capacity_aborts_witness :
    ∃ k2 req2 avail2,
      execPlanModel [(("a100"), 4)] [(("n1"), [(("a100"), 1)])] [(("n2"), [(("epyc"), 2)])]
        = some (PlanResult.insufficient k2 req2 avail2)
      ∧ (k2, req2) ∈ planFilteredRequest [(("a100"), 4)] [(("n1"), [(("a100"), 1)])]
          [(("n2"), [(("epyc"), 2)])]
      ∧ avail2 = getNat (planUnionCounts [(("n1"), [(("a100"), 1)])]
          [(("n2"), [(("epyc"), 2)])]) k2
      ∧ avail2 < req2 :=
  insufficient_capacity_aborts [(("a100"), 4)] [(("n1"), [(("a100"), 1)])]
    [(("n2"), [(("epyc"), 2)])] ("a100") 4 (by decide) (by decide)
